import Mathlib

/-!
Verification development for the `sysfetch-rs` system-information collector
(`src/system_info.rs`).  The Rust code is shallowly embedded: Rust `&str`
values become lists of characters, environment lookups become functions
`String → Option Str`, and every external command invocation becomes an
`Option Str` argument (`none` models a command that is absent or fails,
`some out` models captured standard output).  All definitions are
executable and all recursions are structural so that concrete inputs
evaluate by `decide` / `rfl`.
-/

namespace Sysfetch

/-- Rust string slices are modelled as lists of characters. -/
abbrev Str := List Char

/-- Conversion from a Lean string literal to the model type. -/
def s2l (s : String) : Str := s.data

/-- `leadsWith pat s`: `pat` is a prefix of `s` (Rust `str::starts_with`). -/
def leadsWith : Str → Str → Bool
  | [], _ => true
  | _ :: _, [] => false
  | a :: pa, b :: sb => if a = b then leadsWith pa sb else false

/-- `trailsWith pat s`: `pat` is a suffix of `s` (Rust `str::ends_with`). -/
def trailsWith (pat s : Str) : Bool := leadsWith pat.reverse s.reverse

/-- Index of the first occurrence of `pat` in `s` (Rust `str::find`). -/
def findSub (pat : Str) : Str → Option Nat
  | [] => if leadsWith pat [] then some 0 else none
  | c :: t => if leadsWith pat (c :: t) then some 0 else (findSub pat t).map (fun i => i + 1)

/-- Substring test (Rust `str::contains`). -/
def containsSub (pat s : Str) : Bool := (findSub pat s).isSome

/-- Split on a separator character, keeping empty pieces (Rust `str::split(c)`). -/
def splitChar (c : Char) : Str → List Str
  | [] => [[]]
  | x :: t =>
    if x = c then [] :: splitChar c t
    else
      match splitChar c t with
      | [] => [[x]]
      | h :: r => (x :: h) :: r

/-- Drop a single trailing carriage return, as Rust `str::lines` does per line. -/
def stripCR (l : Str) : Str := if l.getLast? = some '\r' then l.dropLast else l

/-- Rust `str::lines`: split on newline characters, dropping a final empty line
produced by a trailing newline and a trailing `\r` on each line. -/
def rustLines (s : Str) : List Str :=
  if s = [] then []
  else
    let parts := (splitChar '\n' s).map stripCR
    if s.getLast? = some '\n' then parts.dropLast else parts

/-- Rust `str::trim` (the probes only ever see ASCII whitespace). -/
def rustTrim (s : Str) : Str :=
  ((s.dropWhile Char.isWhitespace).reverse.dropWhile Char.isWhitespace).reverse

/-- Fuel-indexed repeated removal of a leading pattern.  The fuel only bounds
the number of iterations; with fuel `s.length` it never runs out, since each
iteration removes at least one character. -/
def stripStartAllF (pat : Str) : Nat → Str → Str
  | 0, s => s
  | f+1, s => if pat ≠ [] ∧ leadsWith pat s then stripStartAllF pat f (s.drop pat.length) else s

/-- Rust `str::trim_start_matches`: repeatedly remove `pat` from the front. -/
def stripStartAll (pat s : Str) : Str := stripStartAllF pat s.length s

/-- Fuel-indexed repeated removal of a trailing pattern. -/
def stripEndAllF (pat : Str) : Nat → Str → Str
  | 0, s => s
  | f+1, s =>
    if pat ≠ [] ∧ trailsWith pat s then stripEndAllF pat f (s.take (s.length - pat.length)) else s

/-- Rust `str::trim_end_matches`: repeatedly remove `pat` from the back. -/
def stripEndAll (pat s : Str) : Str := stripEndAllF pat s.length s

/-- Fuel-indexed replacement of every non-overlapping occurrence of `pat`
(scanning left to right), as Rust `str::replace` does.  Fuel `s.length`
suffices since each step consumes at least one character. -/
def replaceAllF (pat rep : Str) : Nat → Str → Str
  | 0, s => s
  | _+1, [] => []
  | f+1, c :: t =>
    if pat ≠ [] ∧ leadsWith pat (c :: t) then rep ++ replaceAllF pat rep f ((c :: t).drop pat.length)
    else c :: replaceAllF pat rep f t

/-- Rust `str::replace pat rep` (our patterns are never empty). -/
def replaceAll (pat rep s : Str) : Str := replaceAllF pat rep s.length s

/-- Rust `str::strip_prefix`: remove one leading copy of `pat`, if present. -/
def stripPre (pat s : Str) : Option Str :=
  if leadsWith pat s then some (s.drop pat.length) else none

/-- Rust `str::parse::<u32>()`: optional leading `+`, at least one digit,
error on overflow past `u32::MAX`. -/
def parseU32 (s : Str) : Option Nat :=
  let digits := match s with
    | '+' :: rest => rest
    | _ => s
  if digits ≠ [] ∧ digits.all (fun c => c.isDigit) then
    let v := digits.foldl (fun a c => a * 10 + (c.toNat - 48)) 0
    if v ≤ 4294967295 then some v else none
  else none

/-- Compile-time target platform (`cfg!(target_os = ...)` dispatch). -/
inductive Platform
  | windows
  | linux
  | macos
  | other
deriving DecidableEq

/-- CPU information structure (`CpuInfo` in `system_info.rs`). -/
structure CpuInfo where
  model : Str
  cores : Nat
  frequency : Nat
deriving DecidableEq

/-- GPU information structure (`GpuInfo` in `system_info.rs`). -/
structure GpuInfo where
  name : Str
  vendor : Str
deriving DecidableEq

/-- `format_uptime` from `system_info.rs` (u64 arithmetic is division and
remainder only, so plain `Nat` is a faithful embedding). -/
def format_uptime (seconds : Nat) : String :=
  let days := seconds / 86400
  let hours := (seconds % 86400) / 3600
  let minutes := (seconds % 3600) / 60
  if days > 0 then
    toString days ++ "d " ++ toString hours ++ "h " ++ toString minutes ++ "m"
  else if hours > 0 then
    toString hours ++ "h " ++ toString minutes ++ "m"
  else
    toString minutes ++ "m"

/-- Modelled from the spec: the sources under `src/` contain no byte-count
formatter; `format_bytes` is described only in sections 6 and 8 of the
specification.  The selected binary-prefix unit: the largest of
B/KB/MB/GB/TB whose threshold the byte count reaches, capped at TB. -/
def byteUnitIndex (bytes : Nat) : Nat :=
  if 1099511627776 ≤ bytes then 4
  else if 1073741824 ≤ bytes then 3
  else if 1048576 ≤ bytes then 2
  else if 1024 ≤ bytes then 1
  else 0

/-- Modelled from the spec: display names of the binary-prefix units. -/
def byteUnitName : Nat → String
  | 0 => "B"
  | 1 => "KB"
  | 2 => "MB"
  | 3 => "GB"
  | _ => "TB"

/-- Modelled from the spec: byte-count formatter with binary-prefix units,
no decimal for B, one decimal place (truncated) above B. -/
def format_bytes (bytes : Nat) : String :=
  let u := byteUnitIndex bytes
  if u = 0 then toString bytes ++ " B"
  else
    let scale := 1024 ^ u
    toString (bytes / scale) ++ "." ++ toString (bytes * 10 / scale % 10) ++ " " ++ byteUnitName u

/-- One iteration of the CPU-grouping loop of `collect_cpu_info`: look up the
entry keyed by the exact model string; if present bump its core counter
(keeping its stored frequency), otherwise insert a fresh entry with one core
and the current core's frequency. -/
def cpuStep : List CpuInfo → Str × Nat → List CpuInfo
  | [], c => [⟨c.1, 1, c.2⟩]
  | e :: rest, c =>
    if e.model = c.1 then ⟨e.model, e.cores + 1, e.frequency⟩ :: rest
    else e :: cpuStep rest c

/-- `collect_cpu_info` from `system_info.rs`, on the list of logical cores
(each a pair of brand string and frequency).  The Rust code groups into a
`HashMap` whose value iteration order is unspecified; the embedding fixes
first-appearance order, which none of the verified properties depend on. -/
def collect_cpu_info (cpus : List (Str × Nat)) : List CpuInfo :=
  cpus.foldl cpuStep []

/-- First-observed frequency for a model string: frequency of the first
logical core in the input whose brand equals `m`. -/
def firstFreq (l : List (Str × Nat)) (m : Str) : Option Nat :=
  (l.find? (fun c => decide (c.1 = m))).map Prod.snd

/-- The sentinel GPU entry. -/
def unknown_gpu : GpuInfo := ⟨s2l "Unknown GPU", s2l "Unknown"⟩

/-- One line of the Windows `wmic` output parsed by
`get_gpu_info_windows_list`: the state is the in-progress record plus the
list of pushed records.  The line is trimmed; an `AdapterCompatibility=`
line with a non-empty value stores the vendor, a `Name=` line with a
non-empty value stores the name and, when the stored name is non-empty,
pushes the record and resets the state (exactly as the source does — the
push condition tests only the name). -/
def winGpuStep (st : GpuInfo × List GpuInfo) (rawLine : Str) : GpuInfo × List GpuInfo :=
  let line := rustTrim rawLine
  let cur := st.1
  let acc := st.2
  if leadsWith (s2l "AdapterCompatibility=") line
      ∧ stripEndAll (s2l "AdapterCompatibility=") line ≠ [] then
    (⟨cur.name, rustTrim (stripStartAll (s2l "AdapterCompatibility=") line)⟩, acc)
  else if leadsWith (s2l "Name=") line ∧ stripEndAll (s2l "Name=") line ≠ [] then
    let cur' : GpuInfo := ⟨rustTrim (stripStartAll (s2l "Name=") line), cur.vendor⟩
    if cur'.name ≠ [] then (⟨[], []⟩, acc ++ [cur'])
    else (cur', acc)
  else (cur, acc)

/-- Records accumulated by the parsing loop of `get_gpu_info_windows_list`
over one command output. -/
def get_gpu_info_windows_records (out : Str) : List GpuInfo :=
  ((rustLines out).foldl winGpuStep (⟨[], []⟩, [])).2

/-- `get_gpu_info_windows_list`: `outcome` is the result of running `wmic`
(`none` = command absent or failing). -/
def get_gpu_info_windows_list (outcome : Option Str) : List GpuInfo :=
  let gpus := match outcome with
    | some out => get_gpu_info_windows_records out
    | none => []
  if gpus.isEmpty then [unknown_gpu] else gpus

/-- Body of the line loop of `get_gpu_info_linux_list`: a line containing
"VGA compatible controller" or "3D controller" is split on `"`, and with at
least 6 pieces contributes a record with vendor piece 3 and name
"piece3 piece5". -/
def linuxPush (acc : List GpuInfo) (line : Str) : List GpuInfo :=
  if containsSub (s2l "VGA compatible controller") line
      || containsSub (s2l "3D controller") line then
    let parts := splitChar '"' line
    if 6 ≤ parts.length then
      acc ++ [⟨parts.getD 3 [] ++ ' ' :: parts.getD 5 [], parts.getD 3 []⟩]
    else acc
  else acc

/-- Records accumulated by the line loop of `get_gpu_info_linux_list` over
one `lspci -mm` output. -/
def get_gpu_info_linux_records (out : Str) : List GpuInfo :=
  (rustLines out).foldl linuxPush []

/-- `get_gpu_info_linux_list`: `outcome` is the result of running
`lspci -mm` (`none` = command absent or failing). -/
def get_gpu_info_linux_list (outcome : Option Str) : List GpuInfo :=
  let gpus := match outcome with
    | some out => get_gpu_info_linux_records out
    | none => []
  if gpus.isEmpty then [unknown_gpu] else gpus

/-- Per-line extraction rule of the Linux strategy as the specification
states it: filter lines by the two marker substrings, split on the quote
character, require at least 6 segments, take segment 3 as vendor and
"segment3 segment5" as name. -/
def linuxGpuOfLine (line : Str) : Option GpuInfo :=
  if containsSub (s2l "VGA compatible controller") line
      || containsSub (s2l "3D controller") line then
    let parts := splitChar '"' line
    if 6 ≤ parts.length then
      some ⟨parts.getD 3 [] ++ ' ' :: parts.getD 5 [], parts.getD 3 []⟩
    else none
  else none

/-- The literal key marker scanned for in the macOS strategy (11 characters). -/
def macosMarker : Str := s2l "\"_name\" : \""

/-- Vendor classification of `get_gpu_info_macos_list`: case-insensitive
substring match on the extracted GPU name. -/
def macosVendor (name : Str) : Str :=
  let ln := name.map Char.toLower
  if containsSub (s2l "nvidia") ln then s2l "NVIDIA"
  else if containsSub (s2l "amd") ln || containsSub (s2l "radeon") ln then s2l "AMD"
  else if containsSub (s2l "intel") ln then s2l "Intel"
  else s2l "Unknown"

/-- One iteration of the marker-scanning loop of `get_gpu_info_macos_list`:
find the marker, take the characters up to the next `"` as the GPU name, and
continue from that closing quote (the source sets `pos = start + end`).
Returns `none` when the marker or its closing quote is absent. -/
def macosStep (s : Str) : Option (Str × Str) :=
  match findSub macosMarker s with
  | none => none
  | some i =>
    let rest := s.drop (i + 11)
    match findSub (s2l "\"") rest with
    | none => none
    | some j => some (rest.take j, rest.drop j)

/-- The marker-scanning loop, indexed by fuel.  Each successful step
consumes at least the 11 marker characters, so fuel `s.length` is enough;
theorem `C10_macos_scan_total` proves the result is fuel-independent from
that point on, i.e. the loop terminates on every input. -/
def scanFuel : Nat → Str → List GpuInfo
  | 0, _ => []
  | f+1, s =>
    match macosStep s with
    | none => []
    | some (name, rest) => ⟨name, macosVendor name⟩ :: scanFuel f rest

/-- Records accumulated by the marker-scanning loop of
`get_gpu_info_macos_list` over one `system_profiler` output. -/
def get_gpu_info_macos_records (out : Str) : List GpuInfo :=
  scanFuel out.length out

/-- `get_gpu_info_macos_list`: `outcome` is the result of running
`system_profiler SPDisplaysDataType -json`. -/
def get_gpu_info_macos_list (outcome : Option Str) : List GpuInfo :=
  let gpus := match outcome with
    | some out => get_gpu_info_macos_records out
    | none => []
  if gpus.isEmpty then [unknown_gpu] else gpus

/-- `get_gpu_info_list`: platform dispatch of the GPU probe.  `outcome`
models the behaviour of whichever external listing command the selected
strategy runs. -/
def get_gpu_info_list : Platform → Option Str → List GpuInfo
  | .windows, o => get_gpu_info_windows_list o
  | .linux, o => get_gpu_info_linux_list o
  | .macos, o => get_gpu_info_macos_list o
  | .other, _ => [unknown_gpu]

/-- The records parsed by the selected strategy before the sentinel
fallback is applied (empty when the command is absent or fails, and on the
fallback platform branch, which parses nothing). -/
def gpuRawRecords : Platform → Option Str → List GpuInfo
  | .windows, some o => get_gpu_info_windows_records o
  | .linux, some o => get_gpu_info_linux_records o
  | .macos, some o => get_gpu_info_macos_records o
  | _, _ => []

/-- `get_shell_info`: `env` is the environment-variable store, `psComm` the
standard output of the `ps -p <pid> -o comm=` fallback query on non-Windows
targets (`none` = command failed). -/
def get_shell_info (p : Platform) (env : String → Option Str) (psComm : Option Str) : Str :=
  match env "SHELL" with
  | some shell => (splitChar '/' shell).getLastD []
  | none =>
    if p = .windows then
      if (env "PSModulePath").isSome then s2l "PowerShell"
      else
        match env "COMSPEC" with
        | some comspec => replaceAll (s2l ".exe") [] ((splitChar '\\' comspec).getLastD [])
        | none => s2l "cmd"
    else
      match psComm with
      | some out =>
        let sh := rustTrim out
        if sh ≠ [] then sh else s2l "Unknown Shell"
      | none => s2l "Unknown Shell"

/-- What the specification's words for the COMSPEC rule say: strip the
`.exe` extension, i.e. remove one trailing `.exe` if present, else leave
the segment unchanged.  Used to state the counterexample for claim C7. -/
def stripExeExtSpec (s : Str) : Str :=
  if trailsWith (s2l ".exe") s then s.take (s.length - 4) else s

/-- Image-name mapping of the Windows parent-process terminal detection. -/
def winNameMap (name : Str) : Str :=
  if name = s2l "WindowsTerminal.exe" then s2l "Windows Terminal"
  else if name = s2l "ConEmu64.exe" ∨ name = s2l "ConEmu.exe" then s2l "ConEmu"
  else if name = s2l "cmd.exe" then s2l "Command Prompt"
  else if name = s2l "powershell.exe" then s2l "PowerShell"
  else if name = s2l "pwsh.exe" then s2l "PowerShell Core"
  else replaceAll (s2l ".exe") [] name

/-- Scan of the second `wmic` query's output for a `Name=` line with a
non-empty trimmed value. -/
def winParentName (parentOut : Str) : Option Str :=
  (rustLines parentOut).findSome? (fun parentLine =>
    match stripPre (s2l "Name=") parentLine with
    | some name =>
      let name := rustTrim name
      if name ≠ [] then some (winNameMap name) else none
    | none => none)

/-- The Windows parent-process walk of `get_terminal_info`: `wmicParent` is
the output of the `ParentProcessId` query, `wmicName ppid` the output of
the `Name` query for a given parent pid. -/
def winProcessTerminal (wmicParent : Option Str) (wmicName : Nat → Option Str) : Option Str :=
  match wmicParent with
  | none => none
  | some out =>
    (rustLines out).findSome? (fun line =>
      match stripPre (s2l "ParentProcessId=") line with
      | some ppidStr =>
        match parseU32 (rustTrim ppidStr) with
        | some ppid =>
          match wmicName ppid with
          | some parentOut => winParentName parentOut
          | none => none
        | none => none
      | none => none)

/-- The non-Windows `TERM` resolution of `get_terminal_info`; `psComm` is
the output of the `ps` refinement query for xterm-like values. -/
def unixTermResolve (term : Str) (psComm : Option Str) : Str :=
  if term = s2l "xterm-256color" ∨ term = s2l "xterm" then
    match psComm with
    | some out =>
      let parent := rustTrim out
      if parent ≠ [] ∧ parent ≠ s2l "sh" ∧ parent ≠ s2l "bash" then parent
      else s2l "xterm"
    | none => s2l "xterm"
  else if term = s2l "screen" then s2l "GNU Screen"
  else if term = s2l "tmux" then s2l "tmux"
  else if containsSub (s2l "kitty") term then s2l "Kitty"
  else if containsSub (s2l "alacritty") term then s2l "Alacritty"
  else s2l "Unknown Terminal"

/-- `get_terminal_info`: the fixed priority-ordered environment-variable
scan, then Windows marker variables and the parent-process walk, then the
non-Windows `TERM` resolution, with sentinel fallbacks. -/
def get_terminal_info (p : Platform) (env : String → Option Str)
    (wmicParent : Option Str) (wmicName : Nat → Option Str) (psComm : Option Str) : Str :=
  match env "TERM_PROGRAM" with
  | some v => v
  | none =>
    match env "TERMINAL_EMULATOR" with
    | some v => v
    | none =>
      match env "KONSOLE_VERSION" with
      | some _ => s2l "Konsole"
      | none =>
        match env "GNOME_TERMINAL_SCREEN" with
        | some _ => s2l "GNOME Terminal"
        | none =>
          match env "XTERM_VERSION" with
          | some v => s2l "xterm " ++ v
          | none =>
            match env "ALACRITTY_SOCKET" with
            | some _ => s2l "Alacritty"
            | none =>
              match env "KITTY_WINDOW_ID" with
              | some _ => s2l "Kitty"
              | none =>
                match env "WEZTERM_EXECUTABLE" with
                | some _ => s2l "WezTerm"
                | none =>
                  if p = .windows then
                    if (env "WT_SESSION").isSome then s2l "Windows Terminal"
                    else if (env "ConEmuPID").isSome then s2l "ConEmu"
                    else if (env "CMDER_ROOT").isSome then s2l "Cmder"
                    else
                      match winProcessTerminal wmicParent wmicName with
                      | some r => r
                      | none => s2l "Command Prompt"
                  else
                    match env "TERM" with
                    | some term => unixTermResolve term psComm
                    | none => s2l "Unknown Terminal"

/-- Concrete logical-core list used by the witness of claim C2. -/
def cpuSample : List (Str × Nat) :=
  [(s2l "Model A", 2400), (s2l "Model A", 2500), (s2l "Model B", 3000)]

/-- Environment with only `SHELL=/bin/zsh` set. -/
def envZsh : String → Option Str :=
  fun k => if k = "SHELL" then some (s2l "/bin/zsh") else none

/-- Environment with only `COMSPEC=C:\my.exe.bat` set (counterexample for C7). -/
def envComspec : String → Option Str :=
  fun k => if k = "COMSPEC" then some (s2l "C:\\my.exe.bat") else none

/-- Environment with only `TERM_PROGRAM=iTerm.app` set. -/
def envIterm : String → Option Str :=
  fun k => if k = "TERM_PROGRAM" then some (s2l "iTerm.app") else none

theorem gpu_fallback (g : List GpuInfo) :
    (if g.isEmpty then [unknown_gpu] else g) ≠ [] ∧
    (g = [] → (if g.isEmpty then [unknown_gpu] else g) = [unknown_gpu]) := by
  cases g <;> simp

/-- Claim C1: on every platform and for every behaviour of the external
GPU-listing command, `get_gpu_info_list` returns a non-empty list, and
whenever the selected strategy parses no record the result is exactly the
single sentinel `{name: "Unknown GPU", vendor: "Unknown"}`. -/
theorem C1_gpu_nonempty (p : Platform) (o : Option Str) :
    get_gpu_info_list p o ≠ [] ∧
    (gpuRawRecords p o = [] → get_gpu_info_list p o = [unknown_gpu]) := by
  cases p <;> cases o <;>
    simp only [get_gpu_info_list, get_gpu_info_windows_list, get_gpu_info_linux_list,
      get_gpu_info_macos_list, gpuRawRecords] <;>
    first
      | exact gpu_fallback _
      | simp

theorem C1_gpu_nonempty_witness :
    get_gpu_info_list .linux none ≠ [] ∧ get_gpu_info_list .linux none = [unknown_gpu] :=
  ⟨(C1_gpu_nonempty .linux none).1, (C1_gpu_nonempty .linux none).2 rfl⟩

/-- Claim C3: `format_uptime` renders "Xd Yh Zm" whenever the day count is
positive (hours and minutes are kept even when zero), "Yh Zm" when the day
count is zero and the hour count positive, and "Zm" otherwise, with the
four anchor values from the specification. -/
theorem C3_format_uptime (s : Nat) :
    (0 < s / 86400 →
      format_uptime s =
        toString (s / 86400) ++ "d " ++ toString (s % 86400 / 3600) ++ "h " ++
          toString (s % 3600 / 60) ++ "m") ∧
    (s / 86400 = 0 → 0 < s % 86400 / 3600 →
      format_uptime s = toString (s % 86400 / 3600) ++ "h " ++ toString (s % 3600 / 60) ++ "m") ∧
    (s / 86400 = 0 → s % 86400 / 3600 = 0 →
      format_uptime s = toString (s % 3600 / 60) ++ "m") ∧
    format_uptime 61 = "1m" ∧ format_uptime 3661 = "1h 1m" ∧
    format_uptime 90061 = "1d 1h 1m" ∧ format_uptime 0 = "0m" := by
  refine ⟨?_, ?_, ?_, by decide, by decide, by decide, by decide⟩
  · intro h
    simp only [format_uptime]
    rw [if_pos h]
  · intro h0 h
    simp only [format_uptime]
    rw [if_neg (by omega), if_pos h]
  · intro h0 h1
    simp only [format_uptime]
    rw [if_neg (by omega), if_neg (by omega)]

theorem C3_format_uptime_witness :
    format_uptime 90061 =
      toString (90061 / 86400) ++ "d " ++ toString (90061 % 86400 / 3600) ++ "h " ++
        toString (90061 % 3600 / 60) ++ "m" :=
  (C3_format_uptime 90061).1 (by decide)

/-- Claim C4 (spec-modelled: no byte formatter exists under `src/`): the
byte formatter's four anchor values, monotone non-decreasing unit selection
never exceeding TB, no decimal for the B unit and one decimal place above
it. -/
theorem C4_format_bytes :
    format_bytes 0 = "0 B" ∧ format_bytes 1024 = "1.0 KB" ∧
    format_bytes 1048576 = "1.0 MB" ∧ format_bytes 1073741824 = "1.0 GB" ∧
    (∀ a b : Nat, a ≤ b → byteUnitIndex a ≤ byteUnitIndex b) ∧
    (∀ n : Nat, byteUnitIndex n ≤ 4) ∧
    (∀ n : Nat, byteUnitIndex n = 0 → format_bytes n = toString n ++ " B") ∧
    (∀ n : Nat, 0 < byteUnitIndex n →
      format_bytes n =
        toString (n / 1024 ^ byteUnitIndex n) ++ "." ++
          toString (n * 10 / 1024 ^ byteUnitIndex n % 10) ++ " " ++
          byteUnitName (byteUnitIndex n)) := by
  refine ⟨by decide, by decide, by decide, by decide, ?_, ?_, ?_, ?_⟩
  · intro a b hab
    simp only [byteUnitIndex]
    split_ifs <;> omega
  · intro n
    simp only [byteUnitIndex]
    split_ifs <;> omega
  · intro n h
    simp only [format_bytes]
    rw [if_pos h]
  · intro n h
    simp only [format_bytes]
    rw [if_neg (by omega)]

theorem C4_format_bytes_witness : byteUnitIndex 1024 ≤ byteUnitIndex 1048576 :=
  C4_format_bytes.2.2.2.2.1 1024 1048576 (by decide)

/-- Claim C5, evaluation at the failing input: on the output
"Name=Foo GPU\n" the Windows parser pushes a record although no
`AdapterCompatibility` value was ever seen (its vendor field is the empty
string), contradicting the push-only-when-both-fields-seen rule that the
source's own comment states. -/
theorem C5_windows_vendorless_push :
    get_gpu_info_windows_records (s2l "Name=Foo GPU\n") = [⟨s2l "Foo GPU", []⟩] := by
  decide

theorem linuxPush_eq (acc : List GpuInfo) (line : Str) :
    linuxPush acc line = acc ++ (linuxGpuOfLine line).toList := by
  simp only [linuxPush, linuxGpuOfLine]
  split_ifs <;> simp

theorem foldl_linuxPush (ls : List Str) (acc : List GpuInfo) :
    ls.foldl linuxPush acc = acc ++ ls.filterMap linuxGpuOfLine := by
  induction ls generalizing acc with
  | nil => simp
  | cons l t ih =>
    rw [List.foldl_cons, linuxPush_eq, ih]
    cases h : linuxGpuOfLine l <;> simp [List.filterMap_cons, h]

/-- Claim C6: the Linux strategy considers exactly the lines containing
"VGA compatible controller" or "3D controller"; each such line is split on
the quote character and, with at least 6 segments, contributes one record
with vendor = segment 3 and name = "segment3 segment5", while a matching
line with fewer segments contributes nothing — i.e. the accumulated records
are the per-line rule `linuxGpuOfLine` filter-mapped over the lines. -/
theorem C6_linux_line_rule :
    (∀ out, get_gpu_info_linux_records out = (rustLines out).filterMap linuxGpuOfLine) ∧
    get_gpu_info_linux_records
        (s2l "00:02.0 \"VGA compatible controller\" \"Intel\" \"UHD Graphics\"\nunrelated line\n")
      = [⟨s2l "Intel UHD Graphics", s2l "Intel"⟩] := by
  constructor
  · intro out
    simp only [get_gpu_info_linux_records]
    rw [foldl_linuxPush]
    simp
  · decide

theorem leadsWith_le : ∀ (pat s : Str), leadsWith pat s = true → pat.length ≤ s.length := by
  intro pat
  induction pat with
  | nil => intro s _; simp
  | cons a pa ih =>
    intro s h
    cases s with
    | nil => simp [leadsWith] at h
    | cons b sb =>
      simp only [leadsWith] at h
      split at h
      · have := ih sb h
        simp only [List.length_cons]
        omega
      · simp at h

theorem findSub_le : ∀ (s pat : Str) (i : Nat), findSub pat s = some i → i + pat.length ≤ s.length := by
  intro s
  induction s with
  | nil =>
    intro pat i h
    by_cases hl : leadsWith pat [] = true
    · rw [findSub, if_pos hl] at h
      injection h with h'
      have := leadsWith_le pat [] hl
      omega
    · rw [findSub, if_neg hl] at h
      cases h
  | cons c t ih =>
    intro pat i h
    by_cases hl : leadsWith pat (c :: t) = true
    · rw [findSub, if_pos hl] at h
      injection h with h'
      have := leadsWith_le pat (c :: t) hl
      omega
    · rw [findSub, if_neg hl] at h
      cases hfind : findSub pat t with
      | none => rw [hfind] at h; cases h
      | some j =>
        rw [hfind] at h
        simp only [Option.map_some'] at h
        injection h with h'
        have := ih pat j hfind
        simp only [List.length_cons]
        omega

theorem macosStep_shrink : ∀ s name rest : Str, macosStep s = some (name, rest) →
    rest.length < s.length := by
  intro s name rest h
  unfold macosStep at h
  cases hf : findSub macosMarker s with
  | none => simp [hf] at h
  | some i =>
    simp only [hf] at h
    cases hq : findSub (s2l "\"") (s.drop (i + 11)) with
    | none => simp [hq] at h
    | some j =>
      simp only [hq, Option.some.injEq, Prod.mk.injEq] at h
      obtain ⟨-, h2⟩ := h
      subst h2
      have h1 := findSub_le s macosMarker i hf
      have hm : macosMarker.length = 11 := by decide
      simp only [List.length_drop]
      omega

theorem scanFuel_stop (s : Str) (h : macosStep s = none) : ∀ f, scanFuel f s = [] := by
  intro f
  cases f with
  | zero => rfl
  | succ f => simp [scanFuel, h]

theorem scanFuel_mono : ∀ (n : Nat) (s : Str) (f : Nat), s.length ≤ n → s.length ≤ f →
    scanFuel f s = scanFuel s.length s := by
  intro n
  induction n with
  | zero =>
    intro s f hs hf
    have hnil : s = [] := List.length_eq_zero.mp (Nat.le_zero.mp hs)
    subst hnil
    rw [scanFuel_stop [] (by decide), scanFuel_stop [] (by decide)]
  | succ n ih =>
    intro s f hs hf
    cases hstep : macosStep s with
    | none => rw [scanFuel_stop s hstep, scanFuel_stop s hstep]
    | some pr =>
      obtain ⟨name, rest⟩ := pr
      have hlt : rest.length < s.length := macosStep_shrink s name rest hstep
      obtain ⟨f', rfl⟩ : ∃ f', f = f' + 1 := ⟨f - 1, by omega⟩
      obtain ⟨L, hL⟩ : ∃ L, s.length = L + 1 := ⟨s.length - 1, by omega⟩
      rw [hL]
      simp only [scanFuel, hstep]
      rw [ih rest f' (by omega) (by omega), ih rest L (by omega) (by omega)]

/-- Claim C10: the marker-scanning loop of the macOS strategy terminates on
every input: each successful iteration strictly shrinks the remaining text
(the scan position strictly increases), and consequently the fuel-indexed
loop is stable for any fuel of at least the input length, making the
extraction a total function of the command output. -/
theorem C10_macos_scan_total :
    (∀ s name rest : Str, macosStep s = some (name, rest) → rest.length < s.length) ∧
    (∀ (f₁ f₂ : Nat) (s : Str), s.length ≤ f₁ → s.length ≤ f₂ →
      scanFuel f₁ s = scanFuel f₂ s) :=
  ⟨macosStep_shrink, fun f₁ f₂ s h₁ h₂ =>
    (scanFuel_mono s.length s f₁ le_rfl h₁).trans (scanFuel_mono s.length s f₂ le_rfl h₂).symm⟩

theorem cpuStep_mem (m : List CpuInfo) (c : Str × Nat) (x : Str) :
    x ∈ (cpuStep m c).map CpuInfo.model ↔ x ∈ m.map CpuInfo.model ∨ x = c.1 := by
  induction m with
  | nil => simp [cpuStep]
  | cons e rest ih =>
    by_cases he : e.model = c.1
    · simp only [cpuStep, if_pos he, List.map_cons, List.mem_cons]
      constructor
      · rintro (h | h)
        · exact Or.inl (Or.inl h)
        · exact Or.inl (Or.inr h)
      · rintro ((h | h) | h)
        · exact Or.inl h
        · exact Or.inr h
        · exact Or.inl (h.trans he.symm)
    · simp only [cpuStep, if_neg he, List.map_cons, List.mem_cons, ih]
      tauto

theorem cpuStep_nodup (m : List CpuInfo) (c : Str × Nat)
    (h : (m.map CpuInfo.model).Nodup) : ((cpuStep m c).map CpuInfo.model).Nodup := by
  induction m with
  | nil => simp [cpuStep]
  | cons e rest ih =>
    simp only [List.map_cons, List.nodup_cons] at h
    by_cases he : e.model = c.1
    · simp only [cpuStep, if_pos he, List.map_cons, List.nodup_cons]
      exact h
    · simp only [cpuStep, if_neg he, List.map_cons, List.nodup_cons]
      refine ⟨?_, ih h.2⟩
      intro hmem
      rcases (cpuStep_mem rest c e.model).mp hmem with h1 | h1
      · exact h.1 h1
      · exact he h1

theorem cpuStep_sum (m : List CpuInfo) (c : Str × Nat) :
    ((cpuStep m c).map CpuInfo.cores).sum = (m.map CpuInfo.cores).sum + 1 := by
  induction m with
  | nil => simp [cpuStep]
  | cons e rest ih =>
    by_cases he : e.model = c.1
    · simp only [cpuStep, if_pos he, List.map_cons, List.sum_cons]
      omega
    · simp only [cpuStep, if_neg he, List.map_cons, List.sum_cons, ih]
      omega

theorem cpuStep_freq (m : List CpuInfo) (c : Str × Nat) (x : CpuInfo)
    (hx : x ∈ cpuStep m c) :
    (∃ y ∈ m, y.model = x.model ∧ y.frequency = x.frequency) ∨
    (x.model = c.1 ∧ x.frequency = c.2 ∧ c.1 ∉ m.map CpuInfo.model) := by
  induction m with
  | nil =>
    simp only [cpuStep, List.mem_singleton] at hx
    subst hx
    right
    exact ⟨rfl, rfl, by simp⟩
  | cons e rest ih =>
    by_cases he : e.model = c.1
    · simp only [cpuStep, if_pos he, List.mem_cons] at hx
      rcases hx with h | h
      · subst h
        left
        exact ⟨e, List.mem_cons_self e rest, rfl, rfl⟩
      · left
        exact ⟨x, List.mem_cons_of_mem e h, rfl, rfl⟩
    · simp only [cpuStep, if_neg he, List.mem_cons] at hx
      rcases hx with h | h
      · subst h
        left
        exact ⟨x, List.mem_cons_self x rest, rfl, rfl⟩
      · rcases ih h with ⟨y, hy, h1, h2⟩ | ⟨h1, h2, h3⟩
        · left
          exact ⟨y, List.mem_cons_of_mem e hy, h1, h2⟩
        · right
          refine ⟨h1, h2, ?_⟩
          simp only [List.map_cons, List.mem_cons]
          rintro (hh | hh)
          · exact he hh.symm
          · exact h3 hh

theorem foldl_cpu_nodup (l : List (Str × Nat)) : ∀ acc : List CpuInfo,
    (acc.map CpuInfo.model).Nodup → ((l.foldl cpuStep acc).map CpuInfo.model).Nodup := by
  induction l with
  | nil => intro acc h; exact h
  | cons c t ih =>
    intro acc h
    rw [List.foldl_cons]
    exact ih _ (cpuStep_nodup acc c h)

theorem foldl_cpu_mem (l : List (Str × Nat)) : ∀ (acc : List CpuInfo) (x : Str),
    x ∈ (l.foldl cpuStep acc).map CpuInfo.model ↔
      x ∈ acc.map CpuInfo.model ∨ x ∈ l.map Prod.fst := by
  induction l with
  | nil => intro acc x; simp
  | cons c t ih =>
    intro acc x
    rw [List.foldl_cons, ih, cpuStep_mem]
    simp only [List.map_cons, List.mem_cons]
    tauto

theorem foldl_cpu_sum (l : List (Str × Nat)) : ∀ acc : List CpuInfo,
    ((l.foldl cpuStep acc).map CpuInfo.cores).sum = (acc.map CpuInfo.cores).sum + l.length := by
  induction l with
  | nil => intro acc; simp
  | cons c t ih =>
    intro acc
    rw [List.foldl_cons, ih, cpuStep_sum]
    simp only [List.length_cons]
    omega

theorem foldl_cpu_freq (l : List (Str × Nat)) : ∀ (acc : List CpuInfo) (x : CpuInfo),
    x ∈ l.foldl cpuStep acc →
    (∃ y ∈ acc, y.model = x.model ∧ y.frequency = x.frequency) ∨
    (x.model ∉ acc.map CpuInfo.model ∧ firstFreq l x.model = some x.frequency) := by
  induction l with
  | nil =>
    intro acc x hx
    rw [List.foldl_nil] at hx
    left
    exact ⟨x, hx, rfl, rfl⟩
  | cons c t ih =>
    intro acc x hx
    rw [List.foldl_cons] at hx
    rcases ih (cpuStep acc c) x hx with ⟨y, hy, h1, h2⟩ | ⟨h1, h2⟩
    · rcases cpuStep_freq acc c y hy with ⟨z, hz, hz1, hz2⟩ | ⟨hy1, hy2, hy3⟩
      · left
        exact ⟨z, hz, hz1.trans h1, hz2.trans h2⟩
      · right
        have hxm : x.model = c.1 := h1 ▸ hy1
        have hxf : x.frequency = c.2 := h2 ▸ hy2
        refine ⟨by rw [hxm]; exact hy3, ?_⟩
        unfold firstFreq
        rw [List.find?_cons_of_pos _ (by simpa using hxm.symm)]
        simp [hxf]
    · have hne : x.model ≠ c.1 := fun hh => h1 ((cpuStep_mem acc c x.model).mpr (Or.inr hh))
      have hnacc : x.model ∉ acc.map CpuInfo.model :=
        fun hh => h1 ((cpuStep_mem acc c x.model).mpr (Or.inl hh))
      right
      refine ⟨hnacc, ?_⟩
      unfold firstFreq at h2 ⊢
      rw [List.find?_cons_of_neg _ (by simpa using fun hh => hne hh.symm)]
      exact h2

/-- Claim C2: for an input list of `N` logical cores whose model strings
take `k` distinct values, `collect_cpu_info` produces one entry per
distinct model string (pairwise-distinct models covering exactly the
models of the input), hence exactly `k` entries; the `cores` fields sum to
`N`; and each entry's frequency is the frequency of the first core
observed with that model. -/
theorem C2_collect_cpu (l : List (Str × Nat)) :
    ((collect_cpu_info l).map CpuInfo.model).Nodup ∧
    (∀ m, m ∈ (collect_cpu_info l).map CpuInfo.model ↔ m ∈ l.map Prod.fst) ∧
    (collect_cpu_info l).length = (l.map Prod.fst).dedup.length ∧
    ((collect_cpu_info l).map CpuInfo.cores).sum = l.length ∧
    (∀ x, x ∈ collect_cpu_info l → firstFreq l x.model = some x.frequency) := by
  have h1 : ((collect_cpu_info l).map CpuInfo.model).Nodup :=
    foldl_cpu_nodup l [] (by simp)
  have h2 : ∀ m, m ∈ (collect_cpu_info l).map CpuInfo.model ↔ m ∈ l.map Prod.fst := by
    intro m
    simpa [collect_cpu_info] using foldl_cpu_mem l [] m
  refine ⟨h1, h2, ?_, ?_, ?_⟩
  · have hd : ((l.map Prod.fst).dedup).Nodup := List.nodup_dedup _
    have hperm : List.Perm ((collect_cpu_info l).map CpuInfo.model) ((l.map Prod.fst).dedup) := by
      rw [List.perm_ext_iff_of_nodup h1 hd]
      intro a
      rw [h2 a, List.mem_dedup]
    have hlen := hperm.length_eq
    simpa [List.length_map] using hlen
  · simpa [collect_cpu_info] using foldl_cpu_sum l []
  · intro x hx
    rcases foldl_cpu_freq l [] x (by simpa [collect_cpu_info] using hx) with ⟨y, hy, -, -⟩ | ⟨-, h⟩
    · simp at hy
    · exact h

theorem C2_collect_cpu_witness :
    firstFreq cpuSample (⟨s2l "Model A", 2, 2400⟩ : CpuInfo).model
      = some (⟨s2l "Model A", 2, 2400⟩ : CpuInfo).frequency :=
  (C2_collect_cpu cpuSample).2.2.2.2 ⟨s2l "Model A", 2, 2400⟩ (by decide)

/-- Claim C7 (amended): if `SHELL` is set, `get_shell_info` returns its
final '/'-separated path segment regardless of platform and process state
(`SHELL=/bin/zsh` yields "zsh"); otherwise on the Windows target it returns
"PowerShell" when `PSModulePath` is set, else the final '\'-separated
segment of `COMSPEC` with every occurrence of the substring ".exe" removed
(not only a trailing extension) when `COMSPEC` is set, else "cmd". -/
theorem C7_shell_resolution (p : Platform) (env : String → Option Str) (ps : Option Str) :
    (∀ sh, env "SHELL" = some sh →
      get_shell_info p env ps = (splitChar '/' sh).getLastD []) ∧
    (env "SHELL" = none → (env "PSModulePath").isSome →
      get_shell_info .windows env ps = s2l "PowerShell") ∧
    (env "SHELL" = none → env "PSModulePath" = none → ∀ cs, env "COMSPEC" = some cs →
      get_shell_info .windows env ps =
        replaceAll (s2l ".exe") [] ((splitChar '\\' cs).getLastD [])) ∧
    (env "SHELL" = none → env "PSModulePath" = none → env "COMSPEC" = none →
      get_shell_info .windows env ps = s2l "cmd") ∧
    (env "SHELL" = some (s2l "/bin/zsh") → get_shell_info p env ps = s2l "zsh") := by
  refine ⟨?_, ?_, ?_, ?_, ?_⟩
  · intro sh h
    simp [get_shell_info, h]
  · intro h1 h2
    simp [get_shell_info, h1, h2]
  · intro h1 h2 cs h3
    simp [get_shell_info, h1, h2, h3]
  · intro h1 h2 h3
    simp [get_shell_info, h1, h2, h3]
  · intro h
    simp only [get_shell_info, h]
    decide

theorem C7_shell_resolution_witness :
    get_shell_info .linux envZsh none = s2l "zsh" :=
  (C7_shell_resolution .linux envZsh none).2.2.2.2 (by decide)

/-- Claim C7, counterexample to the claim as stated: with only
`COMSPEC=C:\my.exe.bat` set on the Windows target, the code returns
"my.bat" (Rust `str::replace` removes every ".exe" occurrence), while the
final path segment with the ".exe" extension stripped is "my.exe.bat". -/
theorem C7_counterexample :
    get_shell_info .windows envComspec none = s2l "my.bat" ∧
    stripExeExtSpec ((splitChar '\\' (s2l "C:\\my.exe.bat")).getLastD []) = s2l "my.exe.bat" ∧
    s2l "my.bat" ≠ s2l "my.exe.bat" :=
  ⟨by decide, by decide, by decide⟩

/-- Claim C8: `get_terminal_info` first scans the fixed priority-ordered
environment-variable list; for the first variable found set it returns its
literal value (TERM_PROGRAM, TERMINAL_EMULATOR), a fixed display name
(Konsole, GNOME Terminal, Alacritty, Kitty, WezTerm), or "xterm " plus the
value (XTERM_VERSION), before any platform-specific detection runs (the
results do not depend on the platform or the process-query outcomes). -/
theorem C8_terminal_env_priority (p : Platform) (env : String → Option Str)
    (w : Option Str) (wn : Nat → Option Str) (ps : Option Str) :
    (∀ v, env "TERM_PROGRAM" = some v → get_terminal_info p env w wn ps = v) ∧
    (env "TERM_PROGRAM" = none →
      (∀ v, env "TERMINAL_EMULATOR" = some v → get_terminal_info p env w wn ps = v) ∧
      (env "TERMINAL_EMULATOR" = none →
        ((env "KONSOLE_VERSION").isSome → get_terminal_info p env w wn ps = s2l "Konsole") ∧
        (env "KONSOLE_VERSION" = none →
          ((env "GNOME_TERMINAL_SCREEN").isSome →
            get_terminal_info p env w wn ps = s2l "GNOME Terminal") ∧
          (env "GNOME_TERMINAL_SCREEN" = none →
            (∀ v, env "XTERM_VERSION" = some v →
              get_terminal_info p env w wn ps = s2l "xterm " ++ v) ∧
            (env "XTERM_VERSION" = none →
              ((env "ALACRITTY_SOCKET").isSome →
                get_terminal_info p env w wn ps = s2l "Alacritty") ∧
              (env "ALACRITTY_SOCKET" = none →
                ((env "KITTY_WINDOW_ID").isSome →
                  get_terminal_info p env w wn ps = s2l "Kitty") ∧
                (env "KITTY_WINDOW_ID" = none →
                  (env "WEZTERM_EXECUTABLE").isSome →
                  get_terminal_info p env w wn ps = s2l "WezTerm"))))))) := by
  refine ⟨?_, ?_⟩
  · intro v h
    simp [get_terminal_info, h]
  · intro h1
    refine ⟨?_, ?_⟩
    · intro v h
      simp [get_terminal_info, h1, h]
    · intro h2
      refine ⟨?_, ?_⟩
      · intro h
        obtain ⟨v, hv⟩ := Option.isSome_iff_exists.mp h
        simp [get_terminal_info, h1, h2, hv]
      · intro h3
        refine ⟨?_, ?_⟩
        · intro h
          obtain ⟨v, hv⟩ := Option.isSome_iff_exists.mp h
          simp [get_terminal_info, h1, h2, h3, hv]
        · intro h4
          refine ⟨?_, ?_⟩
          · intro v h
            simp [get_terminal_info, h1, h2, h3, h4, h]
          · intro h5
            refine ⟨?_, ?_⟩
            · intro h
              obtain ⟨v, hv⟩ := Option.isSome_iff_exists.mp h
              simp [get_terminal_info, h1, h2, h3, h4, h5, hv]
            · intro h6
              refine ⟨?_, ?_⟩
              · intro h
                obtain ⟨v, hv⟩ := Option.isSome_iff_exists.mp h
                simp [get_terminal_info, h1, h2, h3, h4, h5, h6, hv]
              · intro h7 h
                obtain ⟨v, hv⟩ := Option.isSome_iff_exists.mp h
                simp [get_terminal_info, h1, h2, h3, h4, h5, h6, h7, hv]

theorem C8_terminal_env_priority_witness :
    get_terminal_info .linux envIterm none (fun _ => none) none = s2l "iTerm.app" :=
  (C8_terminal_env_priority .linux envIterm none (fun _ => none) none).1
    (s2l "iTerm.app") (by decide)

/-- Claim C9: the shell and terminal probes are total by construction in
this embedding — they are plain functions into strings for every platform,
environment and subprocess outcome (`none` models a failing query) — and on
a non-Windows target with no relevant environment variable set and a
failing process query they return the sentinels "Unknown Shell" and
"Unknown Terminal". -/
theorem C9_probe_sentinels (p : Platform) (env : String → Option Str)
    (w : Option Str) (wn : Nat → Option Str)
    (hp : p ≠ .windows) (henv : ∀ k, env k = none) :
    get_shell_info p env none = s2l "Unknown Shell" ∧
    get_terminal_info p env w wn none = s2l "Unknown Terminal" := by
  constructor
  · simp [get_shell_info, henv, hp]
  · simp [get_terminal_info, henv, hp]

theorem C9_probe_sentinels_witness :
    get_shell_info .linux (fun _ => none) none = s2l "Unknown Shell" ∧
    get_terminal_info .linux (fun _ => none) none (fun _ => none) none = s2l "Unknown Terminal" :=
  C9_probe_sentinels .linux (fun _ => none) none (fun _ => none) (by decide) (fun _ => rfl)

theorem C10_macos_scan_total_witness :
    (s2l "\"x").length < (s2l "\"_name\" : \"A\"x").length ∧
    scanFuel 20 (s2l "ab") = scanFuel 30 (s2l "ab") :=
  ⟨C10_macos_scan_total.1 (s2l "\"_name\" : \"A\"x") (s2l "A") (s2l "\"x") (by decide),
   C10_macos_scan_total.2 20 30 (s2l "ab") (by decide) (by decide)⟩

end Sysfetch
